import Mathlib

/-!
Shallow embedding of the motly-to-proto converter (src/unnamed/part_000).

The converter turns a parsed schema tree (nested mappings / scalar strings /
string sequences, as produced by the external tag parser's toObject) into a
proto3 text document.  JavaScript records are modelled as association lists
in declaration order (Object.entries order); Maps and Sets are modelled as
association lists / membership lists; string case functions are modelled on
the ASCII range, which is the range the source's regexes operate on.
-/

namespace MotlyToProto

/-- Schema Node: the generic parsed-tree value that the converter walks.
Scalar leaves are strings (type names), sequences are inline-enum literal
value lists (the source stringifies members via map(String); they arrive as
strings from the tag parser), and mappings are ordered key/value records. -/
inductive SNode where
  | str : String → SNode
  | arr : List String → SNode
  | obj : List (String × SNode) → SNode

/-- First-match association-list lookup, modelling JS record property access
obj[key] on parser-produced records (unique keys). -/
def rlookup {α : Type} : List (String × α) → String → Option α
  | [], _ => none
  | p :: rest, k => if p.1 = k then some p.2 else rlookup rest k

/-- getRecord: property access that only accepts mapping values. -/
def getRecord (o : List (String × SNode)) (key : String) : Option (List (String × SNode)) :=
  match rlookup o key with
  | some (SNode.obj l) => some l
  | _ => none

/-- getString: property access that only accepts string values. -/
def getString (o : List (String × SNode)) (key : String) : Option String :=
  match rlookup o key with
  | some (SNode.str s) => some s
  | _ => none

def PROTO_NUMERIC_TYPES : List String :=
  ["int32", "int64", "uint32", "uint64", "sint32", "sint64",
   "fixed32", "fixed64", "sfixed32", "sfixed64", "float", "double"]

structure ProtoField where
  name : String
  type : String
  repeated : Bool
  optional : Bool
  fieldNumber : Nat
deriving DecidableEq

structure ProtoMessage where
  name : String
  fields : List ProtoField
deriving DecidableEq

structure ProtoEnum where
  name : String
  values : List String
deriving DecidableEq

structure ConversionContext where
  typeAliases : List (String × String)
  customTypes : List (String × SNode)
  messages : List ProtoMessage
  enums : List ProtoEnum
  generatedMessages : List String
  generatedEnums : List String
  packageName : Option String

structure ConversionOptions where
  packageName : Option String := none

/- ---------- Naming Transform (pure string functions) ---------- -/

def jsUpper (c : Char) : Bool := decide (65 ≤ c.toNat ∧ c.toNat ≤ 90)
def jsLower (c : Char) : Bool := decide (97 ≤ c.toNat ∧ c.toNat ≤ 122)
def jsDigit (c : Char) : Bool := decide (48 ≤ c.toNat ∧ c.toNat ≤ 57)
def jsAlnum (c : Char) : Bool := jsUpper c || jsLower c || jsDigit c

/-- Characters matched by the JavaScript regex class \s. -/
def jsSpaceChar (c : Char) : Bool :=
  c == ' ' || c == '\t' || c == '\n' || c == '\r' || c == '\x0b' || c == '\x0c' ||
  c == ' ' || c == ' ' || decide (' ' ≤ c ∧ c ≤ ' ') ||
  c == ' ' || c == ' ' || c == ' ' || c == ' ' ||
  c == '　' || c == '﻿'

/-- Step 1 of toSnakeCase: the global replace ([A-Z]+)([A-Z][a-z]) -> $1_$2,
realised as inserting an underscore before an upper-case letter that is
preceded by an upper-case letter and followed by a lower-case letter
(exactly the last capital of a capital run followed by a word). -/
def snake1Aux (p : Char) : List Char → List Char
  | [] => []
  | c :: rest =>
    let ins := jsUpper p && jsUpper c &&
      (match rest with | d :: _ => jsLower d | [] => false)
    if ins then '_' :: c :: snake1Aux c rest else c :: snake1Aux c rest

def snake1 : List Char → List Char
  | [] => []
  | c :: rest => c :: snake1Aux c rest

/-- Step 2 of toSnakeCase: the global replace ([a-z\d])([A-Z]) -> $1_$2. -/
def snake2 : List Char → List Char
  | [] => []
  | c :: rest =>
    match rest with
    | d :: _ =>
      if (jsLower c || jsDigit c) && jsUpper d
      then c :: '_' :: snake2 rest
      else c :: snake2 rest
    | [] => [c]

def sepDash (c : Char) : Bool := c == '-' || jsSpaceChar c

/-- Step 3 of toSnakeCase: the global replace [-\s]+ -> _, collapsing each
maximal run of hyphens/whitespace into a single underscore. -/
def snake3Aux (inRun : Bool) : List Char → List Char
  | [] => []
  | c :: rest =>
    if sepDash c then
      (if inRun then snake3Aux true rest else '_' :: snake3Aux true rest)
    else c :: snake3Aux false rest

def snake3 (l : List Char) : List Char := snake3Aux false l

def toSnakeCase (s : String) : String :=
  String.mk ((snake3 (snake2 (snake1 s.data))).map Char.toLower)

def pSep (c : Char) : Bool := c == '-' || c == '_' || jsSpaceChar c

/- JS String.split on the regex class [-_\s]+ keeps empty segments at the
ends.  The state is (some cur) while inside a word whose reversed prefix is
cur, and none while inside a separator run. -/
def splitCore : Option (List Char) → List Char → List (List Char)
  | some cur, [] => [cur.reverse]
  | none, [] => [[]]
  | some cur, c :: rest =>
    if pSep c then cur.reverse :: splitCore none rest
    else splitCore (some (c :: cur)) rest
  | none, c :: rest =>
    if pSep c then splitCore none rest else splitCore (some [c]) rest

def splitSeps (l : List Char) : List (List Char) := splitCore (some []) l

/-- word.charAt(0).toUpperCase() + word.slice(1).toLowerCase() -/
def pascalWord : List Char → List Char
  | [] => []
  | c :: rest => Char.toUpper c :: rest.map Char.toLower

def toPascalCase (s : String) : String :=
  String.mk (((splitSeps s.data).map pascalWord).flatten)

def toEnumPrefixUpper (enumName : String) : String :=
  (toSnakeCase enumName).toUpper

/-- Collapse each maximal run of non-alphanumerics into one underscore
(the global replace [^a-zA-Z0-9]+ -> _). -/
def sanitizeAux (inRun : Bool) : List Char → List Char
  | [] => []
  | c :: rest =>
    if jsAlnum c then c :: sanitizeAux false rest
    else if inRun then sanitizeAux true rest
    else '_' :: sanitizeAux true rest

/-- The global replace of leading and trailing underscore runs with nothing. -/
def trimUnderscores (l : List Char) : List Char :=
  ((l.dropWhile (fun c => c == '_')).reverse.dropWhile (fun c => c == '_')).reverse

def toEnumValue (value : String) : String :=
  String.mk ((trimUnderscores (sanitizeAux false value.data)).map Char.toUpper)

/- ---------- Type Alias Table ---------- -/

def buildTypeAliases (types : List (String × SNode)) : List (String × String) :=
  types.filterMap (fun p =>
    match p.2 with
    | SNode.str v =>
      if v = "number" ∧ p.1 ∈ PROTO_NUMERIC_TYPES then some (p.1, p.1) else none
    | _ => none)

/- ---------- Type Resolver and Message Builder ---------- -/

/-- Line terminators that the JS regex metacharacter . does not match. -/
def isLineTerm (c : Char) : Bool :=
  c == '\n' || c == '\r' || c == ' ' || c == ' '

/-- fieldType.match(/^(.+)\[\]$/): succeeds when the string ends in the two
characters [] preceded by a non-empty run of non-line-terminator characters;
the greedy .+ captures everything before the final []. -/
def arrayMatch (s : String) : Option String :=
  let cs := s.data
  let n := cs.length
  if 3 ≤ n ∧ cs.drop (n - 2) = ['[', ']'] ∧ (cs.take (n - 2)).all (fun c => !(isLineTerm c))
  then some (String.mk (cs.take (n - 2)))
  else none

/-- The built-in scalar switch at the end of resolveSingleType. -/
def scalarSwitch (typeName : String) : String :=
  if typeName = "string" then "string"
  else if typeName = "number" then "double"
  else if typeName = "boolean" then "bool"
  else if typeName = "date" then "google.protobuf.Timestamp"
  else if typeName = "tag" then "google.protobuf.Struct"
  else if typeName = "flag" then "bool"
  else if typeName = "any" then "google.protobuf.Value"
  else "string"

/-- Array.isArray(customDef.oneOf): the union marker. -/
def hasOneOfMarker (body : List (String × SNode)) : Bool :=
  match rlookup body "oneOf" with
  | some (SNode.arr _) => true
  | _ => false

/- The recursive core.  The source functions buildMessage, processField,
resolveType and resolveSingleType are mutually recursive through custom-type
bodies; that recursion is finite because a name is registered before its
body is built.  Here the nesting of buildMessage calls is bounded by a fuel
argument: the Aux functions take the next-level message builder bm as a
parameter, and buildMessage recurses structurally on the fuel. -/

section
variable (bm : String → List (String × SNode) → ConversionContext →
  ProtoMessage × ConversionContext)

def resolveSingleTypeAux (typeName : String) (_fieldName _parentName : String)
    (c : ConversionContext) : String × ConversionContext :=
  match rlookup c.typeAliases typeName with
  | some a => (a, c)
  | none =>
    match rlookup c.customTypes typeName with
    | some (SNode.arr vs) =>
      let enumName := toPascalCase typeName
      if enumName ∈ c.generatedEnums then (enumName, c)
      else (enumName,
        { c with generatedEnums := enumName :: c.generatedEnums,
                 enums := c.enums ++ [{ name := enumName, values := vs }] })
    | some (SNode.obj body) =>
      if hasOneOfMarker body then ("google.protobuf.Value", c)
      else
        let msgName := toPascalCase typeName
        if msgName ∈ c.generatedMessages then (msgName, c)
        else
          let c1 := { c with generatedMessages := msgName :: c.generatedMessages }
          let r := bm msgName body c1
          (msgName, { r.2 with messages := r.2.messages ++ [r.1] })
    | some (SNode.str _) => (scalarSwitch typeName, c)
    | none => (scalarSwitch typeName, c)

def resolveTypeAux : SNode → String → String → ConversionContext →
    (String × Bool) × ConversionContext
  | SNode.arr vs, fieldName, parentName, c =>
    let enumName := parentName ++ toPascalCase fieldName
    if enumName ∈ c.generatedEnums then ((enumName, false), c)
    else ((enumName, false),
      { c with generatedEnums := enumName :: c.generatedEnums,
               enums := c.enums ++ [{ name := enumName, values := vs }] })
  | SNode.str s, fieldName, parentName, c =>
    match arrayMatch s with
    | some innerType =>
      let r := resolveSingleTypeAux bm innerType fieldName parentName c
      ((r.1, true), r.2)
    | none =>
      let r := resolveSingleTypeAux bm s fieldName parentName c
      ((r.1, false), r.2)
  | SNode.obj l, fieldName, parentName, c =>
    let msgName := parentName ++ toPascalCase fieldName
    if msgName ∈ c.generatedMessages then ((msgName, false), c)
    else
      let c1 := { c with generatedMessages := msgName :: c.generatedMessages }
      let r := bm msgName l c1
      ((msgName, false), { r.2 with messages := r.2.messages ++ [r.1] })

def processFieldAux (fieldName : String) (fieldType : SNode) (optFlag : Bool)
    (fieldNumber : Nat) (parentName : String) (c : ConversionContext) :
    ProtoField × ConversionContext :=
  let r := resolveTypeAux bm fieldType fieldName parentName c
  ({ name := toSnakeCase fieldName, type := r.1.1, repeated := r.1.2,
     optional := optFlag, fieldNumber := fieldNumber }, r.2)

/-- The field loop of buildMessage: processes each entry in declaration
order, incrementing the shared field counter. -/
def buildFieldsAux : List (String × SNode) → Bool → Nat → String →
    ConversionContext → List ProtoField × Nat × ConversionContext
  | [], _, n, _, c => ([], n, c)
  | e :: rest, optFlag, n, parent, c =>
    let r1 := processFieldAux bm e.1 e.2 optFlag n parent c
    let r2 := buildFieldsAux rest optFlag (n + 1) parent r1.2
    (r1.1 :: r2.1, r2.2)

end

/-- buildMessage: walks Required then Optional with a single field counter,
resolving each field's type (which may recursively build nested messages). -/
def buildMessage : Nat → String → List (String × SNode) → ConversionContext →
    ProtoMessage × ConversionContext
  | 0 => fun name _ c => ({ name := name, fields := [] }, c)
  | fuel + 1 => fun name schema c =>
    let req := (getRecord schema ("Required")).getD []
    let r1 := buildFieldsAux (buildMessage fuel) req false 1 name c
    let opt := (getRecord schema ("Optional")).getD []
    let r2 := buildFieldsAux (buildMessage fuel) opt true r1.2.1 name r1.2.2
    ({ name := name, fields := r1.1 ++ r2.1 }, r2.2.2)

def buildFields (fuel : Nat) : List (String × SNode) → Bool → Nat → String →
    ConversionContext → List ProtoField × Nat × ConversionContext :=
  buildFieldsAux (buildMessage fuel)

def processField (fuel : Nat) : String → SNode → Bool → Nat → String →
    ConversionContext → ProtoField × ConversionContext :=
  processFieldAux (buildMessage fuel)

def resolveType (fuel : Nat) : SNode → String → String → ConversionContext →
    (String × Bool) × ConversionContext :=
  resolveTypeAux (buildMessage fuel)

def resolveSingleType (fuel : Nat) : String → String → String →
    ConversionContext → String × ConversionContext :=
  resolveSingleTypeAux (buildMessage fuel)

/- ---------- Document Assembler ---------- -/

/-- JS Array.prototype.join with the newline separator. -/
def joinLines : List String → String
  | [] => ""
  | [x] => x
  | x :: xs => x ++ "\n" ++ joinLines xs

/-- JS Array.prototype.join with the comma-space separator. -/
def joinComma : List String → String
  | [] => ""
  | [x] => x
  | x :: xs => x ++ ", " ++ joinComma xs

def fieldLine (f : ProtoField) : String :=
  let rep := if f.repeated then "repeated " else ""
  let optStr := if f.optional && !f.repeated then "optional " else ""
  "  " ++ optStr ++ rep ++ f.type ++ " " ++ f.name ++ " = " ++
    toString f.fieldNumber ++ ";"

def messageLines (m : ProtoMessage) : List String :=
  ("message " ++ m.name ++ " \x7b") :: m.fields.map fieldLine ++ ["\x7d", ""]

def enumLines (e : ProtoEnum) : List String :=
  let pfx := toEnumPrefixUpper e.name
  ("enum " ++ e.name ++ " \x7b") :: ("  " ++ pfx ++ "_UNSPECIFIED = 0;") ::
    e.values.enum.map
      (fun p => "  " ++ pfx ++ "_" ++ toEnumValue p.2 ++ " = " ++ toString (p.1 + 1) ++ ";")
    ++ ["\x7d", ""]

def importTimestampLine : String := "import \"google/protobuf/timestamp.proto\";"
def importStructLine : String := "import \"google/protobuf/struct.proto\";"

def packageLines (c : ConversionContext) : List String :=
  match c.packageName with
  | some p => if p = "" then [] else ["package " ++ p ++ ";", ""]
  | none => []

/-- The lines pushed by generateProtoFile after the package block:
well-known imports (timestamp before struct, only when referenced), enum
blocks in discovery order, then message blocks with the root first. -/
def protoTailLines (c : ConversionContext) : List String :=
  let allFieldTypes := c.messages.flatMap (fun m => m.fields.map (fun f => f.type))
  let needsTimestamp := allFieldTypes.contains ("google.protobuf.Timestamp")
  let needsStruct := allFieldTypes.any
    (fun t => t == "google.protobuf.Struct" || t == "google.protobuf.Value")
  let importLines :=
    (if needsTimestamp then [importTimestampLine] else []) ++
    (if needsStruct then [importStructLine] else []) ++
    (if needsTimestamp || needsStruct then [""] else [])
  importLines ++ c.enums.flatMap enumLines ++ c.messages.flatMap messageLines

/-- The full ordered line list pushed by generateProtoFile before joining:
syntax header, package block, then the imports and declarations. -/
def protoLines (c : ConversionContext) : List String :=
  ["syntax = \"proto3\";", ""] ++ packageLines c ++ protoTailLines c

def generateProtoFile (c : ConversionContext) : String :=
  joinLines (protoLines c)

/- ---------- Entry point ---------- -/

/- Fuel that comfortably dominates the nesting depth of message bodies:
each nested buildMessage either descends into a subtree or is guarded by
first-time registration of one of the finitely many custom type names. -/
mutual
def nodeSize : SNode → Nat
  | SNode.str _ => 1
  | SNode.arr _ => 1
  | SNode.obj l => 1 + nlistSize l
def nlistSize : List (String × SNode) → Nat
  | [] => 0
  | p :: rest => 1 + nodeSize p.2 + nlistSize rest
end

def convFuel (schema types : List (String × SNode)) : Nat :=
  nlistSize schema + nlistSize types + types.length + 2

/-- The conversion context and message list produced from a parsed schema
tree (the body of motlySchemaToProto after parsing): the root message is
built first and unshifted to the front of the accumulated messages. -/
def buildConversion (directives : List (String × SNode))
    (schema : List (String × SNode)) (messageName : String)
    (opts : ConversionOptions) : ConversionContext :=
  let pkgName := match opts.packageName with
    | some p => some p
    | none => getString directives ("package")
  let types := (getRecord schema ("Types")).getD []
  let c0 : ConversionContext :=
    { typeAliases := buildTypeAliases types,
      customTypes := types,
      messages := [], enums := [],
      generatedMessages := [], generatedEnums := [],
      packageName := pkgName }
  let r := buildMessage (convFuel schema types) messageName schema c0
  { r.2 with messages := r.1 :: r.2.messages }

def convertParsed (directives : List (String × SNode))
    (schema : List (String × SNode)) (messageName : String)
    (opts : ConversionOptions) : String :=
  generateProtoFile (buildConversion directives schema messageName opts)

/-- The result of the external tag parser on a piece of text: the parsed
tree as a record (tag.toObject()) and the parse-error messages (log). -/
structure ParseResult where
  tag : List (String × SNode)
  log : List String

/-- parseDirectives: strips the leading run of lines beginning with the
directive marker, parses them through the external parser, and fails with
the joined diagnostics when that parse reports errors. -/
def parseDirectives (ptag : String → ParseResult) (content : String) :
    Except String (List (String × SNode) × String) :=
  let lines := content.splitOn "\n"
  let directiveLines := (lines.takeWhile (fun l => l.startsWith ("#!"))).map
    (fun l => (l.drop 2).trim)
  if directiveLines.length = 0 then Except.ok ([], content)
  else
    let res := ptag (joinLines directiveLines)
    if res.log.length > 0 then
      Except.error ("Directive parse errors: " ++ joinComma res.log)
    else
      Except.ok (res.tag, joinLines (lines.drop directiveLines.length))

/-- motlySchemaToProto: the whole conversion, parameterised by the external
tag parser.  Its only failures are the two parse failures. -/
def motlySchemaToProto (ptag : String → ParseResult) (schemaContent : String)
    (messageName : String) (opts : ConversionOptions) : Except String String :=
  match parseDirectives ptag schemaContent with
  | Except.error e => Except.error e
  | Except.ok (directives, rest) =>
    let res := ptag rest
    if res.log.length > 0 then
      Except.error ("Parse errors: " ++ joinComma res.log)
    else
      Except.ok (convertParsed directives res.tag messageName opts)

/- ---------- Concrete example inputs used in witnesses ---------- -/

def emptyCtx : ConversionContext :=
  { typeAliases := [], customTypes := [], messages := [], enums := [],
    generatedMessages := [], generatedEnums := [], packageName := none }

def addressBody : List (String × SNode) :=
  [("Required", SNode.obj [("street", SNode.str "string"), ("city", SNode.str "string")])]

def nestedTypes : List (String × SNode) := [("Address", SNode.obj addressBody)]

def nestedSchema : List (String × SNode) :=
  [("Types", SNode.obj nestedTypes),
   ("Required", SNode.obj [("address", SNode.str "Address"), ("alt", SNode.str "Address")])]

/-- A context in which the custom type name Address is already registered. -/
def registeredCtx : ConversionContext :=
  { typeAliases := buildTypeAliases nestedTypes, customTypes := nestedTypes,
    messages := [], enums := [], generatedMessages := ["Address"],
    generatedEnums := [], packageName := none }

/-- A schema declaring a custom type whose Pascal-cased name collides with
the root message name Address. -/
def rootDupSchema : List (String × SNode) :=
  [("Types", SNode.obj nestedTypes),
   ("Required", SNode.obj [("address", SNode.str "Address")])]

/-- The C8 scenario schema: Types declaring int64 as a numeric alias. -/
def aliasSchema : List (String × SNode) :=
  [("Types", SNode.obj [("int64", SNode.str "number")]),
   ("Required", SNode.obj [("id", SNode.str "int64")])]

/-- A declaration block holding a union (oneOf) custom type. -/
def unionBody : List (String × SNode) := [("oneOf", SNode.arr ["a", "b"])]

def unionTypes : List (String × SNode) := [("Payload", SNode.obj unionBody)]

def unionCtx : ConversionContext :=
  { typeAliases := buildTypeAliases unionTypes, customTypes := unionTypes,
    messages := [], enums := [], generatedMessages := [], generatedEnums := [],
    packageName := none }

/-- A registry that declares a custom type literally named with an array
suffix, reachable by stripping one suffix from a doubly suffixed type. -/
def trickTypes : List (String × SNode) := [("string[]", SNode.obj [])]

def trickCtx : ConversionContext :=
  { typeAliases := buildTypeAliases trickTypes, customTypes := trickTypes,
    messages := [], enums := [], generatedMessages := [], generatedEnums := [],
    packageName := none }

/-- A parser stub whose results are fixed, for exercising the entry point. -/
def constParser (r : ParseResult) : String → ParseResult := fun _ => r

/- ---------- Field numbering (Message Builder) ---------- -/

theorem buildFieldsAux_spec
    (bm : String → List (String × SNode) → ConversionContext → ProtoMessage × ConversionContext)
    (l : List (String × SNode)) (b : Bool) (p : String) :
    ∀ (n : Nat) (c : ConversionContext),
    ((buildFieldsAux bm l b n p c).1.map (fun f => f.fieldNumber) = List.range' n l.length) ∧
    ((buildFieldsAux bm l b n p c).1.map (fun f => f.optional) = List.replicate l.length b) ∧
    ((buildFieldsAux bm l b n p c).1.map (fun f => f.name) = l.map (fun e => toSnakeCase e.1)) ∧
    (buildFieldsAux bm l b n p c).2.1 = n + l.length := by
  induction l with
  | nil => intro n c; simp [buildFieldsAux]
  | cons e rest ih =>
    intro n c
    obtain ⟨h1, h2, h3, h4⟩ := ih (n + 1) ((processFieldAux bm e.1 e.2 b n p c).2)
    simp only [buildFieldsAux, List.map_cons, List.length_cons, processFieldAux] at h1 h2 h3 h4 ⊢
    refine ⟨?_, ?_, ?_, ?_⟩
    · rw [List.range'_succ, h1]
    · rw [List.replicate_succ, h2]
    · rw [h3]
    · omega

/-- C1: every message built by the Message Builder carries field numbers
exactly 1..N with no gaps, from a single counter that starts at 1 and walks
the Required section then the Optional section in declaration order, so
every required field's number is smaller than every optional field's. -/
theorem buildMessage_field_numbering (fuel : Nat) (name : String)
    (schema : List (String × SNode)) (c : ConversionContext) :
    ((buildMessage (fuel + 1) name schema c).1.fields.map (fun f => f.fieldNumber) =
      List.range' 1 (buildMessage (fuel + 1) name schema c).1.fields.length) ∧
    ((buildMessage (fuel + 1) name schema c).1.fields.map (fun f => f.optional) =
      List.replicate ((getRecord schema ("Required")).getD []).length false ++
      List.replicate ((getRecord schema ("Optional")).getD []).length true) ∧
    ((buildMessage (fuel + 1) name schema c).1.fields.map (fun f => f.name) =
      (((getRecord schema ("Required")).getD []) ++ ((getRecord schema ("Optional")).getD [])).map
        (fun e => toSnakeCase e.1)) ∧
    (∀ f ∈ (buildMessage (fuel + 1) name schema c).1.fields,
     ∀ g ∈ (buildMessage (fuel + 1) name schema c).1.fields,
       f.optional = false → g.optional = true → f.fieldNumber < g.fieldNumber) := by
  obtain ⟨r1, r2, r3, r4⟩ := buildFieldsAux_spec (buildMessage fuel)
    ((getRecord schema ("Required")).getD []) false name 1 c
  obtain ⟨o1, o2, o3, o4⟩ := buildFieldsAux_spec (buildMessage fuel)
    ((getRecord schema ("Optional")).getD []) true name
    ((buildFieldsAux (buildMessage fuel) ((getRecord schema ("Required")).getD []) false 1 name c).2.1)
    ((buildFieldsAux (buildMessage fuel) ((getRecord schema ("Required")).getD []) false 1 name c).2.2)
  simp only [buildMessage]
  rw [r4] at o1 o2 o3 o4 ⊢
  have lR : (buildFieldsAux (buildMessage fuel) ((getRecord schema ("Required")).getD [])
      false 1 name c).1.length = ((getRecord schema ("Required")).getD []).length := by
    have := congrArg List.length r1
    simpa using this
  have lO : (buildFieldsAux (buildMessage fuel) ((getRecord schema ("Optional")).getD [])
      true (1 + ((getRecord schema ("Required")).getD []).length) name
      (buildFieldsAux (buildMessage fuel) ((getRecord schema ("Required")).getD [])
        false 1 name c).2.2).1.length = ((getRecord schema ("Optional")).getD []).length := by
    have := congrArg List.length o1
    simpa using this
  refine ⟨?_, ?_, ?_, ?_⟩
  · rw [List.map_append, r1, o1, List.length_append, lR, lO]
    have := List.range'_append 1 ((getRecord schema ("Required")).getD []).length
      ((getRecord schema ("Optional")).getD []).length 1
    simp only [Nat.one_mul] at this
    rw [Nat.add_comm ((getRecord schema ("Required")).getD []).length
      ((getRecord schema ("Optional")).getD []).length]
    exact this
  · rw [List.map_append, r2, o2]
  · rw [List.map_append, r3, o3, List.map_append]
  · intro f hf g hg hfo hgo
    rw [List.mem_append] at hf hg
    have hf1 : f ∈ (buildFieldsAux (buildMessage fuel)
        ((getRecord schema ("Required")).getD []) false 1 name c).1 := by
      rcases hf with h | h
      · exact h
      · exfalso
        have hx : f.optional = true := List.eq_of_mem_replicate (o2 ▸ List.mem_map_of_mem _ h)
        rw [hfo] at hx
        simp at hx
    have hg1 : g ∈ (buildFieldsAux (buildMessage fuel)
        ((getRecord schema ("Optional")).getD []) true
        (1 + ((getRecord schema ("Required")).getD []).length) name
        (buildFieldsAux (buildMessage fuel) ((getRecord schema ("Required")).getD [])
          false 1 name c).2.2).1 := by
      rcases hg with h | h
      · exfalso
        have hx : g.optional = false := List.eq_of_mem_replicate (r2 ▸ List.mem_map_of_mem _ h)
        rw [hgo] at hx
        simp at hx
      · exact h
    have hfn : f.fieldNumber ∈ List.range' 1 ((getRecord schema ("Required")).getD []).length := by
      rw [← r1]; exact List.mem_map_of_mem _ hf1
    have hgn : g.fieldNumber ∈
        List.range' (1 + ((getRecord schema ("Required")).getD []).length)
        ((getRecord schema ("Optional")).getD []).length := by
      rw [← o1]; exact List.mem_map_of_mem _ hg1
    rw [List.mem_range'] at hfn hgn
    obtain ⟨i, hi, hieq⟩ := hfn
    obtain ⟨j, hj, hjeq⟩ := hgn
    omega

/-- Witness for C1 at a concrete schema: one required and one optional
field give the number sequence 1, 2 and a strict required-before-optional
ordering between the two concrete fields. -/
theorem buildMessage_field_numbering_witness :
    ((buildMessage 1 "M" [("Required", SNode.obj [("a", SNode.str "string")]),
        ("Optional", SNode.obj [("b", SNode.str "number")])]
        { typeAliases := [], customTypes := [], messages := [], enums := [],
          generatedMessages := [], generatedEnums := [], packageName := none }).1.fields.map
      (fun f => f.fieldNumber) = [1, 2]) ∧ (1 : Nat) < 2 := by
  have h := buildMessage_field_numbering 0 "M"
    [("Required", SNode.obj [("a", SNode.str "string")]),
     ("Optional", SNode.obj [("b", SNode.str "number")])]
    { typeAliases := [], customTypes := [], messages := [], enums := [],
      generatedMessages := [], generatedEnums := [], packageName := none }
  constructor
  · rw [h.1]; rfl
  · exact h.2.2.2 ⟨"a", "string", false, false, 1⟩ (by decide)
      ⟨"b", "double", false, true, 2⟩ (by decide) rfl rfl

/- ---------- Enum rendering ---------- -/

/-- C2: the rendered block of an enum with k declared literal values holds
exactly k+1 members: first PREFIX_UNSPECIFIED with index 0, where PREFIX is
the upper-snake-case of the enum's name, then one member per literal at
indices 1..k named PREFIX_SANITIZED via the run-collapsing, trimming,
upper-casing sanitizer. -/
theorem enumLines_members (e : ProtoEnum) :
    ∃ members, enumLines e = ("enum " ++ e.name ++ " \x7b") :: members ++ ["\x7d", ""] ∧
    members.length = e.values.length + 1 ∧
    members.head? = some ("  " ++ toEnumPrefixUpper e.name ++ "_UNSPECIFIED = 0;") ∧
    ∀ i v, e.values[i]? = some v →
      members[i + 1]? = some ("  " ++ toEnumPrefixUpper e.name ++ "_" ++
        toEnumValue v ++ " = " ++ toString (i + 1) ++ ";") := by
  refine ⟨("  " ++ toEnumPrefixUpper e.name ++ "_UNSPECIFIED = 0;") ::
    e.values.enum.map (fun p => "  " ++ toEnumPrefixUpper e.name ++ "_" ++
      toEnumValue p.2 ++ " = " ++ toString (p.1 + 1) ++ ";"), ?_, ?_, ?_, ?_⟩
  · simp [enumLines]
  · simp [List.enum_length]
  · rfl
  · intro i v hv
    simp only [List.getElem?_cons_succ, List.getElem?_map, List.getElem?_enum, hv,
      Option.map_some']

/-- Witness for C2 at a concrete two-valued enum: the block is the header
plus members plus closing lines, and the first literal sits at index 1. -/
theorem enumLines_members_witness :
    ∃ members,
      (enumLines { name := "UserStatus", values := ["pending", "active"] } =
        ("enum " ++ "UserStatus" ++ " \x7b") :: members ++ ["\x7d", ""]) ∧
      members[1]? = some ("  " ++ toEnumPrefixUpper "UserStatus" ++ "_" ++
        toEnumValue "pending" ++ " = " ++ toString 1 ++ ";") := by
  obtain ⟨members, h1, -, -, h4⟩ :=
    enumLines_members { name := "UserStatus", values := ["pending", "active"] }
  exact ⟨members, h1, h4 0 "pending" rfl⟩

/- ---------- Context evolution: the deduplication invariant ---------- -/

/-- How a conversion context may change across any resolver or builder
call: the read-only parts are untouched, messages and enums only get
appended, every appended declaration bears a name that was not registered
before the call and is registered after it, the appended names are
pairwise distinct, and the generated-name sets grow by exactly the names
of the appended declarations. -/
structure Evolves (c c2 : ConversionContext) : Prop where
  aliases : c2.typeAliases = c.typeAliases
  custom : c2.customTypes = c.customTypes
  pkg : c2.packageName = c.packageName
  msgs : ∃ dm, c2.messages = c.messages ++ dm ∧
    (dm.map ProtoMessage.name).Nodup ∧
    (∀ nm ∈ dm.map ProtoMessage.name, nm ∉ c.generatedMessages) ∧
    (∀ nm, nm ∈ c2.generatedMessages ↔
      (nm ∈ c.generatedMessages ∨ nm ∈ dm.map ProtoMessage.name))
  enms : ∃ de, c2.enums = c.enums ++ de ∧
    (de.map ProtoEnum.name).Nodup ∧
    (∀ nm ∈ de.map ProtoEnum.name, nm ∉ c.generatedEnums) ∧
    (∀ nm, nm ∈ c2.generatedEnums ↔
      (nm ∈ c.generatedEnums ∨ nm ∈ de.map ProtoEnum.name))

theorem evolves_refl (c : ConversionContext) : Evolves c c := by
  refine ⟨rfl, rfl, rfl, ⟨[], by simp, by simp, by simp, by simp⟩,
    ⟨[], by simp, by simp, by simp, by simp⟩⟩

theorem Evolves.trans {c1 c2 c3 : ConversionContext}
    (h12 : Evolves c1 c2) (h23 : Evolves c2 c3) : Evolves c1 c3 := by
  obtain ⟨a12, u12, p12, ⟨dm1, hm1, hn1, hf1, hg1⟩, ⟨de1, he1, hen1, hef1, heg1⟩⟩ := h12
  obtain ⟨a23, u23, p23, ⟨dm2, hm2, hn2, hf2, hg2⟩, ⟨de2, he2, hen2, hef2, heg2⟩⟩ := h23
  refine ⟨a23.trans a12, u23.trans u12, p23.trans p12,
    ⟨dm1 ++ dm2, ?_, ?_, ?_, ?_⟩, ⟨de1 ++ de2, ?_, ?_, ?_, ?_⟩⟩
  · rw [hm2, hm1, List.append_assoc]
  · rw [List.map_append]
    refine List.Nodup.append hn1 hn2 ?_
    intro x hx1 hx2
    exact hf2 x hx2 ((hg1 x).2 (Or.inr hx1))
  · intro nm hnm
    rw [List.map_append, List.mem_append] at hnm
    rcases hnm with h | h
    · exact hf1 nm h
    · intro hc
      exact hf2 nm h ((hg1 nm).2 (Or.inl hc))
  · intro nm
    rw [hg2 nm, hg1 nm, List.map_append, List.mem_append]
    tauto
  · rw [he2, he1, List.append_assoc]
  · rw [List.map_append]
    refine List.Nodup.append hen1 hen2 ?_
    intro x hx1 hx2
    exact hef2 x hx2 ((heg1 x).2 (Or.inr hx1))
  · intro nm hnm
    rw [List.map_append, List.mem_append] at hnm
    rcases hnm with h | h
    · exact hef1 nm h
    · intro hc
      exact hef2 nm h ((heg1 nm).2 (Or.inl hc))
  · intro nm
    rw [heg2 nm, heg1 nm, List.map_append, List.mem_append]
    tauto

theorem Evolves.genM_mono {c c2 : ConversionContext} (h : Evolves c c2)
    {nm : String} (hm : nm ∈ c.generatedMessages) : nm ∈ c2.generatedMessages := by
  obtain ⟨_, _, _, ⟨dm, _, _, _, hg⟩, _⟩ := h
  exact (hg nm).2 (Or.inl hm)

theorem Evolves.genE_mono {c c2 : ConversionContext} (h : Evolves c c2)
    {nm : String} (hm : nm ∈ c.generatedEnums) : nm ∈ c2.generatedEnums := by
  obtain ⟨_, _, _, _, ⟨de, _, _, _, hg⟩⟩ := h
  exact (hg nm).2 (Or.inl hm)

/-- Registering a fresh enum name and appending its declaration in one step
is a context evolution. -/
theorem Evolves.pushEnum {c : ConversionContext} {enumName : String} {vs : List String}
    (h : enumName ∉ c.generatedEnums) :
    Evolves c { c with generatedEnums := enumName :: c.generatedEnums,
                       enums := c.enums ++ [{ name := enumName, values := vs }] } := by
  refine ⟨rfl, rfl, rfl, ⟨[], by simp, by simp, by simp, by simp⟩,
    ⟨[{ name := enumName, values := vs }], by simp, by simp, ?_, ?_⟩⟩
  · intro nm hnm
    simp only [List.map_cons, List.map_nil, List.mem_singleton] at hnm
    rw [hnm]
    exact h
  · intro nm
    simp [Or.comm]

/-- Registering a fresh message name, building its body through any
evolution, and then appending the built message is a context evolution. -/
theorem Evolves.registerBuild {c c3 : ConversionContext} {msgName : String}
    {m : ProtoMessage}
    (hfresh : msgName ∉ c.generatedMessages)
    (hname : m.name = msgName)
    (hbody : Evolves { c with generatedMessages := msgName :: c.generatedMessages } c3) :
    Evolves c { c3 with messages := c3.messages ++ [m] } := by
  obtain ⟨a, u, p, ⟨dm, hm, hn, hf, hg⟩, ⟨de, he, hen, hef, heg⟩⟩ := hbody
  refine ⟨a, u, p, ⟨dm ++ [m], ?_, ?_, ?_, ?_⟩, ⟨de, he, hen, ?_, heg⟩⟩
  · simp only [hm]
    simp [List.append_assoc]
  · rw [List.map_append]
    refine List.Nodup.append hn (by simp) ?_
    intro x hx1 hx2
    simp only [List.map_cons, List.map_nil, List.mem_singleton, hname] at hx2
    have := hf x hx1
    rw [hx2] at this
    exact this (by simp)
  · intro nm hnm
    rw [List.map_append, List.mem_append] at hnm
    rcases hnm with hh | hh
    · have := hf nm hh
      intro hc
      exact this (by simp [hc])
    · simp only [List.map_cons, List.map_nil, List.mem_singleton, hname] at hh
      rw [hh]
      exact hfresh
  · intro nm
    rw [hg nm]
    simp only [List.mem_cons, List.map_append, List.mem_append, List.map_cons,
      List.map_nil, List.mem_singleton, hname]
    tauto
  · intro nm hnm
    exact hef nm hnm

theorem buildMessage_name (fuel : Nat) (nm : String) (schema : List (String × SNode))
    (c : ConversionContext) : (buildMessage fuel nm schema c).1.name = nm := by
  cases fuel with
  | zero => rfl
  | succ n => rfl

section EvolvesLemmas

variable {bm : String → List (String × SNode) → ConversionContext →
  ProtoMessage × ConversionContext}

theorem evolves_resolveSingleTypeAux
    (hbmE : ∀ nm sch c, Evolves c (bm nm sch c).2)
    (hbmN : ∀ nm sch c, (bm nm sch c).1.name = nm)
    (tn fn pn : String) (c : ConversionContext) :
    Evolves c (resolveSingleTypeAux bm tn fn pn c).2 := by
  unfold resolveSingleTypeAux
  rcases hA : rlookup c.typeAliases tn with _ | a
  · rcases hC : rlookup c.customTypes tn with _ | node
    · exact evolves_refl c
    · cases node with
      | str s => exact evolves_refl c
      | arr vs =>
        simp only
        split
        · exact evolves_refl c
        · exact Evolves.pushEnum (by assumption)
      | obj body =>
        simp only
        split
        · exact evolves_refl c
        · split
          · exact evolves_refl c
          · exact Evolves.registerBuild (by assumption) (hbmN _ _ _) (hbmE _ _ _)
  · exact evolves_refl c

theorem evolves_resolveTypeAux
    (hbmE : ∀ nm sch c, Evolves c (bm nm sch c).2)
    (hbmN : ∀ nm sch c, (bm nm sch c).1.name = nm)
    (ft : SNode) (fn pn : String) (c : ConversionContext) :
    Evolves c (resolveTypeAux bm ft fn pn c).2 := by
  cases ft with
  | arr vs =>
    unfold resolveTypeAux
    simp only
    split
    · exact evolves_refl c
    · exact Evolves.pushEnum (by assumption)
  | str s =>
    simp only [resolveTypeAux]
    rcases hM : arrayMatch s with _ | innerType
    · exact evolves_resolveSingleTypeAux hbmE hbmN s fn pn c
    · exact evolves_resolveSingleTypeAux hbmE hbmN innerType fn pn c
  | obj l =>
    unfold resolveTypeAux
    simp only
    split
    · exact evolves_refl c
    · exact Evolves.registerBuild (by assumption) (hbmN _ _ _) (hbmE _ _ _)

theorem evolves_processFieldAux
    (hbmE : ∀ nm sch c, Evolves c (bm nm sch c).2)
    (hbmN : ∀ nm sch c, (bm nm sch c).1.name = nm)
    (fn : String) (ft : SNode) (b : Bool) (n : Nat) (pn : String)
    (c : ConversionContext) :
    Evolves c (processFieldAux bm fn ft b n pn c).2 :=
  evolves_resolveTypeAux hbmE hbmN ft fn pn c

theorem evolves_buildFieldsAux
    (hbmE : ∀ nm sch c, Evolves c (bm nm sch c).2)
    (hbmN : ∀ nm sch c, (bm nm sch c).1.name = nm)
    (l : List (String × SNode)) (b : Bool) (p : String) :
    ∀ (n : Nat) (c : ConversionContext),
      Evolves c (buildFieldsAux bm l b n p c).2.2 := by
  induction l with
  | nil => intro n c; exact evolves_refl c
  | cons e rest ih =>
    intro n c
    exact Evolves.trans (evolves_processFieldAux hbmE hbmN e.1 e.2 b n p c)
      (ih (n + 1) ((processFieldAux bm e.1 e.2 b n p c).2))

end EvolvesLemmas

theorem evolves_buildMessage (fuel : Nat) : ∀ (nm : String)
    (schema : List (String × SNode)) (c : ConversionContext),
    Evolves c (buildMessage fuel nm schema c).2 := by
  induction fuel with
  | zero => intro nm schema c; exact evolves_refl c
  | succ n ih =>
    intro nm schema c
    exact Evolves.trans
      (evolves_buildFieldsAux ih (buildMessage_name n) _ false nm 1 c)
      (evolves_buildFieldsAux ih (buildMessage_name n) _ true nm _ _)

/- ---------- Alias table lookups ---------- -/

theorem rlookup_eq_some_of_mem_nodup {α : Type} {types : List (String × α)}
    {tn : String} {v : α} (hnodup : (types.map Prod.fst).Nodup)
    (hmem : (tn, v) ∈ types) : rlookup types tn = some v := by
  induction types with
  | nil => cases hmem
  | cons p rest ih =>
    rcases List.mem_cons.mp hmem with h | h
    · rw [← h]
      simp [rlookup]
    · simp only [List.map_cons, List.nodup_cons] at hnodup
      have hne : p.1 ≠ tn := by
        intro heq
        exact hnodup.1 (heq ▸ List.mem_map_of_mem Prod.fst h)
      simp only [rlookup, if_neg hne]
      exact ih hnodup.2 h

theorem rlookup_mem {α : Type} {l : List (String × α)} {k : String} {a : α}
    (h : rlookup l k = some a) : (k, a) ∈ l := by
  induction l with
  | nil => cases h
  | cons p rest ih =>
    rw [rlookup] at h
    by_cases hk : p.1 = k
    · rw [if_pos hk] at h
      injection h with ha
      have hp : p = (k, a) := by
        obtain ⟨p1, p2⟩ := p
        simp only [Prod.mk.injEq]
        exact ⟨hk, ha⟩
      rw [← hp]
      exact List.mem_cons_self p rest
    · rw [if_neg hk] at h
      exact List.mem_cons_of_mem _ (ih h)

theorem buildTypeAliases_lookup_some {types : List (String × SNode)}
    {tn a : String} (h : rlookup (buildTypeAliases types) tn = some a) :
    a = tn ∧ tn ∈ PROTO_NUMERIC_TYPES ∧ (tn, SNode.str "number") ∈ types := by
  have hmem := rlookup_mem h
  simp only [buildTypeAliases, List.mem_filterMap] at hmem
  obtain ⟨p, hp, hf⟩ := hmem
  obtain ⟨k, v⟩ := p
  cases v with
  | str w =>
    simp only at hf
    by_cases hcond : w = "number" ∧ k ∈ PROTO_NUMERIC_TYPES
    · rw [if_pos hcond] at hf
      injection hf with hpair
      rw [Prod.mk.injEq] at hpair
      obtain ⟨hk, ha⟩ := hpair
      refine ⟨by rw [← ha, ← hk], by rw [← hk]; exact hcond.2, ?_⟩
      rw [← hk]
      rw [hcond.1] at hp
      exact hp
    · rw [if_neg hcond] at hf
      cases hf
  | arr vs => simp at hf
  | obj l2 => simp at hf

/-- A name mapped to a record in the declaration block never appears in the
alias table (the alias table only admits names declared as the exact string
number). -/
theorem buildTypeAliases_lookup_obj_none {types : List (String × SNode)}
    {tn : String} {body : List (String × SNode)}
    (hnodup : (types.map Prod.fst).Nodup)
    (h : rlookup types tn = some (SNode.obj body)) :
    rlookup (buildTypeAliases types) tn = none := by
  rcases ha : rlookup (buildTypeAliases types) tn with _ | a
  · rfl
  · exfalso
    obtain ⟨_, _, hmem⟩ := buildTypeAliases_lookup_some ha
    have := rlookup_eq_some_of_mem_nodup hnodup hmem
    rw [h] at this
    cases this

/-- Likewise for a name mapped to a sequence (enum declaration). -/
theorem buildTypeAliases_lookup_arr_none {types : List (String × SNode)}
    {tn : String} {vs : List String}
    (hnodup : (types.map Prod.fst).Nodup)
    (h : rlookup types tn = some (SNode.arr vs)) :
    rlookup (buildTypeAliases types) tn = none := by
  rcases ha : rlookup (buildTypeAliases types) tn with _ | a
  · rfl
  · exfalso
    obtain ⟨_, _, hmem⟩ := buildTypeAliases_lookup_some ha
    have := rlookup_eq_some_of_mem_nodup hnodup hmem
    rw [h] at this
    cases this

/- ---------- Registration: a referenced custom message type ends up
registered and declared ---------- -/

section RegisterLemmas

variable {bm : String → List (String × SNode) → ConversionContext →
  ProtoMessage × ConversionContext}

theorem resolveSingleTypeAux_registers
    (hbmE : ∀ nm sch c, Evolves c (bm nm sch c).2)
    {tn : String} (fn pn : String) {c : ConversionContext}
    {body : List (String × SNode)}
    (hAlias : rlookup c.typeAliases tn = none)
    (hCustom : rlookup c.customTypes tn = some (SNode.obj body))
    (hUnion : hasOneOfMarker body = false) :
    toPascalCase tn ∈ (resolveSingleTypeAux bm tn fn pn c).2.generatedMessages := by
  simp only [resolveSingleTypeAux, hAlias, hCustom, hUnion, Bool.false_eq_true, if_false]
  by_cases hMem : toPascalCase tn ∈ c.generatedMessages
  · rw [if_pos hMem]
    exact hMem
  · rw [if_neg hMem]
    exact (hbmE (toPascalCase tn) body
      { c with generatedMessages := toPascalCase tn :: c.generatedMessages }).genM_mono
      (List.mem_cons_self _ _)

theorem resolveTypeAux_registers
    (hbmE : ∀ nm sch c, Evolves c (bm nm sch c).2)
    {s tn : String} (fn pn : String) {c : ConversionContext}
    {body : List (String × SNode)}
    (hS : arrayMatch s = none ∧ tn = s ∨ arrayMatch s = some tn)
    (hAlias : rlookup c.typeAliases tn = none)
    (hCustom : rlookup c.customTypes tn = some (SNode.obj body))
    (hUnion : hasOneOfMarker body = false) :
    toPascalCase tn ∈ (resolveTypeAux bm (SNode.str s) fn pn c).2.generatedMessages := by
  simp only [resolveTypeAux]
  rcases hS with ⟨h1, h2⟩ | h1
  · rw [h1]
    subst h2
    exact resolveSingleTypeAux_registers hbmE fn pn hAlias hCustom hUnion
  · rw [h1]
    exact resolveSingleTypeAux_registers hbmE fn pn hAlias hCustom hUnion

theorem buildFieldsAux_registers
    (hbmE : ∀ nm sch c, Evolves c (bm nm sch c).2)
    (hbmN : ∀ nm sch c, (bm nm sch c).1.name = nm)
    (l : List (String × SNode)) (b : Bool) (p : String) :
    ∀ (n : Nat) (c : ConversionContext) (fn s tn : String)
      (body : List (String × SNode)),
      (fn, SNode.str s) ∈ l →
      (arrayMatch s = none ∧ tn = s ∨ arrayMatch s = some tn) →
      rlookup c.typeAliases tn = none →
      rlookup c.customTypes tn = some (SNode.obj body) →
      hasOneOfMarker body = false →
      toPascalCase tn ∈ (buildFieldsAux bm l b n p c).2.2.generatedMessages := by
  induction l with
  | nil => intro n c fn s tn body hmem; cases hmem
  | cons e rest ih =>
    intro n c fn s tn body hmem hS hAlias hCustom hUnion
    simp only [buildFieldsAux]
    rcases List.mem_cons.mp hmem with h | h
    · have hreg : toPascalCase tn ∈
          (processFieldAux bm e.1 e.2 b n p c).2.generatedMessages := by
        rw [← h]
        exact resolveTypeAux_registers hbmE fn p hS hAlias hCustom hUnion
      exact (evolves_buildFieldsAux hbmE hbmN rest b p (n + 1)
        ((processFieldAux bm e.1 e.2 b n p c).2)).genM_mono hreg
    · have hev := evolves_processFieldAux hbmE hbmN e.1 e.2 b n p c
      refine ih (n + 1) ((processFieldAux bm e.1 e.2 b n p c).2) fn s tn body h hS ?_ ?_ hUnion
      · rw [hev.aliases]
        exact hAlias
      · rw [hev.custom]
        exact hCustom

end RegisterLemmas

theorem buildMessage_registers (fuel : Nat) (nm : String)
    (schema : List (String × SNode)) (c : ConversionContext)
    (fn s tn : String) (body : List (String × SNode))
    (hmem : (fn, SNode.str s) ∈ (getRecord schema ("Required")).getD [] ∨
            (fn, SNode.str s) ∈ (getRecord schema ("Optional")).getD [])
    (hS : arrayMatch s = none ∧ tn = s ∨ arrayMatch s = some tn)
    (hAlias : rlookup c.typeAliases tn = none)
    (hCustom : rlookup c.customTypes tn = some (SNode.obj body))
    (hUnion : hasOneOfMarker body = false) :
    toPascalCase tn ∈ (buildMessage (fuel + 1) nm schema c).2.generatedMessages := by
  simp only [buildMessage]
  rcases hmem with h | h
  · have hreg := buildFieldsAux_registers (evolves_buildMessage fuel) (buildMessage_name fuel)
      ((getRecord schema ("Required")).getD []) false nm 1 c fn s tn body h hS hAlias hCustom hUnion
    exact (evolves_buildFieldsAux (evolves_buildMessage fuel) (buildMessage_name fuel)
      ((getRecord schema ("Optional")).getD []) true nm _ _).genM_mono hreg
  · have hev := evolves_buildFieldsAux (evolves_buildMessage fuel) (buildMessage_name fuel)
      ((getRecord schema ("Required")).getD []) false nm 1 c
    refine buildFieldsAux_registers (evolves_buildMessage fuel) (buildMessage_name fuel)
      ((getRecord schema ("Optional")).getD []) true nm _ _ fn s tn body h hS ?_ ?_ hUnion
    · rw [hev.aliases]
      exact hAlias
    · rw [hev.custom]
      exact hCustom

/- ---------- Idempotent deduplication ---------- -/

theorem builtContext_dedup (fuel : Nat) (messageName : String)
    (schema : List (String × SNode)) (c0 : ConversionContext)
    (h0m : c0.messages = []) (h0g : c0.generatedMessages = [])
    (h0e : c0.enums = []) (h0ge : c0.generatedEnums = []) :
    (((buildMessage fuel messageName schema c0).2.messages.map ProtoMessage.name).Nodup) ∧
    (((buildMessage fuel messageName schema c0).2.enums.map ProtoEnum.name).Nodup) ∧
    (∀ nm, nm ∈ (buildMessage fuel messageName schema c0).2.generatedMessages ↔
      nm ∈ (buildMessage fuel messageName schema c0).2.messages.map ProtoMessage.name) ∧
    (∀ nm, nm ∈ (buildMessage fuel messageName schema c0).2.generatedEnums ↔
      nm ∈ (buildMessage fuel messageName schema c0).2.enums.map ProtoEnum.name) := by
  obtain ⟨_, _, _, ⟨dm, hm, hnd, _, hg⟩, ⟨de, he, hend, _, heg⟩⟩ :=
    evolves_buildMessage fuel messageName schema c0
  rw [h0m, List.nil_append] at hm
  rw [h0e, List.nil_append] at he
  refine ⟨by rw [hm]; exact hnd, by rw [he]; exact hend, ?_, ?_⟩
  · intro nm
    rw [hm, hg nm, h0g]
    simp
  · intro nm
    rw [he, heg nm, h0ge]
    simp

/-- C3: referencing the same named custom type (enum or message) from two
or more fields yields exactly one declaration with that name: in the built
context the message names and enum names emitted during resolution are
pairwise distinct and coincide exactly with the registered-name sets, and a
reference that finds its name already registered returns the name with the
context completely unchanged, emitting nothing. -/
theorem conversion_dedup (directives schema : List (String × SNode))
    (messageName : String) (opts : ConversionOptions) :
    (((buildConversion directives schema messageName opts).messages.tail.map
        ProtoMessage.name).Nodup) ∧
    (((buildConversion directives schema messageName opts).enums.map
        ProtoEnum.name).Nodup) ∧
    (∀ nm, nm ∈ (buildConversion directives schema messageName opts).generatedMessages ↔
      nm ∈ (buildConversion directives schema messageName opts).messages.tail.map
        ProtoMessage.name) ∧
    (∀ nm, nm ∈ (buildConversion directives schema messageName opts).generatedEnums ↔
      nm ∈ (buildConversion directives schema messageName opts).enums.map
        ProtoEnum.name) ∧
    (∀ (fuel : Nat) (tn fn pn : String) (c : ConversionContext)
       (body : List (String × SNode)),
       rlookup c.typeAliases tn = none →
       rlookup c.customTypes tn = some (SNode.obj body) →
       hasOneOfMarker body = false →
       toPascalCase tn ∈ c.generatedMessages →
       resolveSingleType fuel tn fn pn c = (toPascalCase tn, c)) ∧
    (∀ (fuel : Nat) (tn fn pn : String) (c : ConversionContext) (vs : List String),
       rlookup c.typeAliases tn = none →
       rlookup c.customTypes tn = some (SNode.arr vs) →
       toPascalCase tn ∈ c.generatedEnums →
       resolveSingleType fuel tn fn pn c = (toPascalCase tn, c)) := by
  obtain ⟨h1, h2, h3, h4⟩ := builtContext_dedup
    (convFuel schema ((getRecord schema ("Types")).getD []))
    messageName schema
    { typeAliases := buildTypeAliases ((getRecord schema ("Types")).getD []),
      customTypes := (getRecord schema ("Types")).getD [],
      messages := [], enums := [],
      generatedMessages := [], generatedEnums := [],
      packageName := match opts.packageName with
        | some p => some p
        | none => getString directives ("package") }
    rfl rfl rfl rfl
  refine ⟨?_, ?_, ?_, ?_, ?_, ?_⟩
  · simpa only [buildConversion, List.tail_cons] using h1
  · simpa only [buildConversion] using h2
  · simpa only [buildConversion, List.tail_cons] using h3
  · simpa only [buildConversion] using h4
  · intro fuel tn fn pn c body hAlias hCustom hUnion hMem
    simp only [resolveSingleType, resolveSingleTypeAux, hAlias, hCustom, hUnion,
      Bool.false_eq_true, if_false, if_pos hMem]
  · intro fuel tn fn pn c vs hAlias hCustom hMem
    simp only [resolveSingleType, resolveSingleTypeAux, hAlias, hCustom, if_pos hMem]

/-- Witness for C3: in a context where Address is already registered, a
second reference to the Address custom type returns the name and leaves the
context untouched. -/
theorem conversion_dedup_witness :
    resolveSingleType 3 "Address" "alt" "WithNested" registeredCtx =
      ("Address", registeredCtx) := by
  obtain ⟨-, -, -, -, hE, -⟩ := conversion_dedup [] nestedSchema "WithNested" {}
  exact hE 3 "Address" "alt" "WithNested" registeredCtx addressBody rfl rfl rfl
    (by decide)

/- ---------- The root message is exempt from deduplication ---------- -/

/-- C9: the root message's name is never added to the generated-name set,
so a custom type whose Pascal-cased name equals the root name and that is
referenced from a root field yields two message declarations bearing the
same name in the final message list. -/
theorem root_not_deduplicated (directives schema : List (String × SNode))
    (messageName : String) (opts : ConversionOptions) (fn s tn : String)
    (body : List (String × SNode))
    (hnodup : ((((getRecord schema ("Types")).getD []).map Prod.fst)).Nodup)
    (hCustom : rlookup ((getRecord schema ("Types")).getD []) tn = some (SNode.obj body))
    (hUnion : hasOneOfMarker body = false)
    (hPascal : toPascalCase tn = messageName)
    (hmem : (fn, SNode.str s) ∈ (getRecord schema ("Required")).getD [] ∨
            (fn, SNode.str s) ∈ (getRecord schema ("Optional")).getD [])
    (hS : arrayMatch s = none ∧ tn = s ∨ arrayMatch s = some tn) :
    ((buildConversion directives schema messageName opts).messages.map
      ProtoMessage.name).count messageName = 2 := by
  simp only [buildConversion, List.map_cons]
  rw [buildMessage_name]
  rw [List.count_cons_self]
  have hfuel : convFuel schema ((getRecord schema ("Types")).getD []) =
      (convFuel schema ((getRecord schema ("Types")).getD []) - 1) + 1 := by
    unfold convFuel
    omega
  rw [hfuel]
  have hAlias : rlookup (buildTypeAliases ((getRecord schema ("Types")).getD [])) tn = none :=
    buildTypeAliases_lookup_obj_none hnodup hCustom
  have hreg := buildMessage_registers
    (convFuel schema ((getRecord schema ("Types")).getD []) - 1) messageName schema
    { typeAliases := buildTypeAliases ((getRecord schema ("Types")).getD []),
      customTypes := (getRecord schema ("Types")).getD [],
      messages := [], enums := [],
      generatedMessages := [], generatedEnums := [],
      packageName := match opts.packageName with
        | some p => some p
        | none => getString directives ("package") }
    fn s tn body hmem hS hAlias hCustom hUnion
  obtain ⟨h1, _, h3, _⟩ := builtContext_dedup
    ((convFuel schema ((getRecord schema ("Types")).getD []) - 1) + 1) messageName schema
    { typeAliases := buildTypeAliases ((getRecord schema ("Types")).getD []),
      customTypes := (getRecord schema ("Types")).getD [],
      messages := [], enums := [],
      generatedMessages := [], generatedEnums := [],
      packageName := match opts.packageName with
        | some p => some p
        | none => getString directives ("package") }
    rfl rfl rfl rfl
  have hmemN : messageName ∈
      ((buildMessage ((convFuel schema ((getRecord schema ("Types")).getD []) - 1) + 1)
        messageName schema
        { typeAliases := buildTypeAliases ((getRecord schema ("Types")).getD []),
          customTypes := (getRecord schema ("Types")).getD [],
          messages := [], enums := [],
          generatedMessages := [], generatedEnums := [],
          packageName := match opts.packageName with
            | some p => some p
            | none => getString directives ("package") }).2.messages.map ProtoMessage.name) := by
    have h0b := (h3 (toPascalCase tn)).1 hreg
    rw [hPascal] at h0b
    exact h0b
  rw [List.count_eq_one_of_mem h1 hmemN]

/-- Witness for C9: converting a schema whose custom type Address collides
with the root name Address yields two messages named Address. -/
theorem root_not_deduplicated_witness :
    ((buildConversion [] rootDupSchema "Address" {}).messages.map
      ProtoMessage.name).count "Address" = 2 := by
  refine root_not_deduplicated [] rootDupSchema "Address" {} "address" "Address"
    "Address" addressBody (by decide) rfl rfl rfl ?_ ?_
  · exact Or.inl (List.mem_singleton.mpr rfl)
  · exact Or.inl ⟨by decide, rfl⟩

/- ---------- Union (oneOf) types ---------- -/

/-- C4: a field naming a custom type registered as a mapping that carries
the union marker (an oneOf entry holding a sequence) resolves to the fixed
well-known google.protobuf.Value, and the context is returned unchanged —
no declaration of any kind is emitted for the union type. -/
theorem union_resolves_to_value (fuel : Nat) (tn fn pn : String)
    (c : ConversionContext) (body : List (String × SNode)) (vs : List String)
    (hnodup : (c.customTypes.map Prod.fst).Nodup)
    (hta : c.typeAliases = buildTypeAliases c.customTypes)
    (hCustom : rlookup c.customTypes tn = some (SNode.obj body))
    (hOneOf : rlookup body "oneOf" = some (SNode.arr vs)) :
    resolveSingleType fuel tn fn pn c = ("google.protobuf.Value", c) := by
  have hAlias : rlookup c.typeAliases tn = none := by
    rw [hta]
    exact buildTypeAliases_lookup_obj_none hnodup hCustom
  have hU : hasOneOfMarker body = true := by
    simp [hasOneOfMarker, hOneOf]
  simp only [resolveSingleType, resolveSingleTypeAux, hAlias, hCustom, hU, if_true]

/-- Witness for C4 at a concrete union declaration. -/
theorem union_resolves_to_value_witness :
    resolveSingleType 3 "Payload" "f" "Root" unionCtx =
      ("google.protobuf.Value", unionCtx) :=
  union_resolves_to_value 3 "Payload" "f" "Root" unionCtx unionBody ["a", "b"]
    (by decide) rfl rfl rfl

/- ---------- Array fields ---------- -/

theorem arrayMatch_append (inner : String) (hne : inner ≠ "")
    (hterm : ∀ ch ∈ inner.data, isLineTerm ch = false) :
    arrayMatch (inner ++ "[]") = some inner := by
  obtain ⟨d⟩ := inner
  have hpos : d ≠ [] := by
    intro h0
    apply hne
    rw [h0]
  have hdata : (String.mk d ++ "[]").data = d ++ ['[', ']'] := rfl
  have hlen : 1 ≤ d.length := List.length_pos.mpr hpos
  simp only at hterm
  simp only [arrayMatch, hdata, List.length_append, List.length_cons,
    List.length_nil]
  have harith : d.length + (0 + 1 + 1) - 2 = d.length := by omega
  rw [if_pos]
  · rw [harith, List.take_left]
  · refine ⟨by omega, ?_, ?_⟩
    · rw [harith, List.drop_left]
    · rw [harith, List.take_left, List.all_eq_true]
      intro ch hch
      rw [hterm ch hch]
      rfl

/-- C6: a field declared with an array-suffixed type resolves with the
repeated flag set, its type is the suffix-stripped inner name resolved
through the single-type path, and its rendered line carries the repeated
modifier and never the optional modifier, whatever section it sits in. -/
theorem array_field_repeated (fuel : Nat) (inner fn pn : String) (b : Bool)
    (n : Nat) (c : ConversionContext) (hne : inner ≠ "")
    (hterm : ∀ ch ∈ inner.data, isLineTerm ch = false) :
    (processField fuel fn (SNode.str (inner ++ "[]")) b n pn c).1.repeated = true ∧
    (processField fuel fn (SNode.str (inner ++ "[]")) b n pn c).1.type =
      (resolveSingleType fuel inner fn pn c).1 ∧
    fieldLine (processField fuel fn (SNode.str (inner ++ "[]")) b n pn c).1 =
      "  " ++ "repeated " ++ (resolveSingleType fuel inner fn pn c).1 ++ " " ++
        toSnakeCase fn ++ " = " ++ toString n ++ ";" := by
  have hM := arrayMatch_append inner hne hterm
  have h1 : (processField fuel fn (SNode.str (inner ++ "[]")) b n pn c).1 =
      { name := toSnakeCase fn, type := (resolveSingleType fuel inner fn pn c).1,
        repeated := true, optional := b, fieldNumber := n } := by
    simp only [processField, processFieldAux, resolveTypeAux, hM, resolveSingleType]
  rw [h1]
  refine ⟨rfl, rfl, ?_⟩
  simp only [fieldLine, Bool.not_true, Bool.and_false, Bool.false_eq_true, if_false]
  rfl

/-- Witness for C6: a string array field in an optional section renders
repeated and without the optional modifier. -/
theorem array_field_repeated_witness :
    (processField 3 "tags" (SNode.str ("string" ++ "[]")) true 4 "Root" emptyCtx).1.repeated = true ∧
    (processField 3 "tags" (SNode.str ("string" ++ "[]")) true 4 "Root" emptyCtx).1.type =
      (resolveSingleType 3 "string" "tags" "Root" emptyCtx).1 ∧
    fieldLine (processField 3 "tags" (SNode.str ("string" ++ "[]")) true 4 "Root" emptyCtx).1 =
      "  " ++ "repeated " ++ (resolveSingleType 3 "string" "tags" "Root" emptyCtx).1 ++ " " ++
        toSnakeCase "tags" ++ " = " ++ toString 4 ++ ";" :=
  array_field_repeated 3 "string" "tags" "Root" true 4 emptyCtx (by decide)
    (by decide)

/- ---------- Error handling: only the two parse failures ---------- -/

theorem parseDirectives_cases (ptag : String → ParseResult) (content : String) :
    (∃ r, parseDirectives ptag content = Except.ok r) ∨
    (∃ msgs, msgs ≠ [] ∧ parseDirectives ptag content =
      Except.error ("Directive parse errors: " ++ joinComma msgs)) := by
  simp only [parseDirectives]
  split
  · exact Or.inl ⟨_, rfl⟩
  · split
    · rename_i hl
      right
      refine ⟨_, ?_, rfl⟩
      intro h0
      rw [h0] at hl
      simp at hl
    · exact Or.inl ⟨_, rfl⟩

/-- C5: beyond the two parse steps the conversion is total.  A scalar type
name absent from the alias table, the custom-type registry and the fixed
scalar table silently resolves to the plain scalar string with the context
unchanged; and the whole conversion either succeeds or fails with exactly
one of the two parse-failure messages carrying the joined diagnostics. -/
theorem conversion_total (ptag : String → ParseResult)
    (content messageName : String) (opts : ConversionOptions)
    (fuel : Nat) (tn fn pn : String) (c : ConversionContext)
    (hAlias : rlookup c.typeAliases tn = none)
    (hCustom : rlookup c.customTypes tn = none)
    (hScalar : tn ∉ ["string", "number", "boolean", "date", "tag", "flag", "any"]) :
    resolveSingleType fuel tn fn pn c = ("string", c) ∧
    ((∃ out, motlySchemaToProto ptag content messageName opts = Except.ok out) ∨
     (∃ msgs, msgs ≠ [] ∧ motlySchemaToProto ptag content messageName opts =
        Except.error ("Directive parse errors: " ++ joinComma msgs)) ∨
     (∃ msgs, msgs ≠ [] ∧ motlySchemaToProto ptag content messageName opts =
        Except.error ("Parse errors: " ++ joinComma msgs))) := by
  constructor
  · have h1 : tn ≠ "string" := fun h => hScalar (by rw [h]; simp)
    have h2 : tn ≠ "number" := fun h => hScalar (by rw [h]; simp)
    have h3 : tn ≠ "boolean" := fun h => hScalar (by rw [h]; simp)
    have h4 : tn ≠ "date" := fun h => hScalar (by rw [h]; simp)
    have h5 : tn ≠ "tag" := fun h => hScalar (by rw [h]; simp)
    have h6 : tn ≠ "flag" := fun h => hScalar (by rw [h]; simp)
    have h7 : tn ≠ "any" := fun h => hScalar (by rw [h]; simp)
    simp only [resolveSingleType, resolveSingleTypeAux, hAlias, hCustom, scalarSwitch,
      if_neg h1, if_neg h2, if_neg h3, if_neg h4, if_neg h5, if_neg h6, if_neg h7]
  · rcases parseDirectives_cases ptag content with ⟨r, hr⟩ | ⟨msgs, hne, hr⟩
    · obtain ⟨dirs, rest⟩ := r
      unfold motlySchemaToProto
      rw [hr]
      by_cases hl : (ptag rest).log.length > 0
      · right; right
        refine ⟨(ptag rest).log, ?_, ?_⟩
        · intro h0
          rw [h0] at hl
          simp at hl
        · simp only [if_pos hl]
      · left
        exact ⟨convertParsed dirs (ptag rest).tag messageName opts,
          by simp only [if_neg hl]⟩
    · right; left
      refine ⟨msgs, hne, ?_⟩
      unfold motlySchemaToProto
      rw [hr]

/-- Witness for C5: with a parser stub that reports no errors, the unknown
type Foo resolves to string and the conversion succeeds. -/
theorem conversion_total_witness :
    resolveSingleType 0 "Foo" "f" "Root" emptyCtx = ("string", emptyCtx) ∧
    ((∃ out, motlySchemaToProto (constParser ⟨[], []⟩) "x" "Msg" {} = Except.ok out) ∨
     (∃ msgs, msgs ≠ [] ∧ motlySchemaToProto (constParser ⟨[], []⟩) "x" "Msg" {} =
        Except.error ("Directive parse errors: " ++ joinComma msgs)) ∨
     (∃ msgs, msgs ≠ [] ∧ motlySchemaToProto (constParser ⟨[], []⟩) "x" "Msg" {} =
        Except.error ("Parse errors: " ++ joinComma msgs))) :=
  conversion_total (constParser ⟨[], []⟩) "x" "Msg" {} 0 "Foo" "f" "Root" emptyCtx
    rfl rfl (by decide)

/- ---------- Package directive precedence ---------- -/

/-- C7: an explicit package option always wins over a package directive in
the schema text: with the option present the built context carries the
option's package, the whole output is independent of the directives, and
the rendered lines carry the option's package line; with only the directive
present its value is the package used. -/
theorem package_precedence (directives schema : List (String × SNode))
    (messageName p d : String) :
    (buildConversion directives schema messageName
      { packageName := some p }).packageName = some p ∧
    (convertParsed directives schema messageName { packageName := some p } =
      convertParsed [] schema messageName { packageName := some p }) ∧
    (p ≠ "" → ∃ rest, protoLines (buildConversion directives schema messageName
        { packageName := some p }) =
      "syntax = \"proto3\";" :: "" :: ("package " ++ p ++ ";") :: "" :: rest) ∧
    (buildConversion [("package", SNode.str d)] schema messageName
      { packageName := none }).packageName = some d ∧
    (d ≠ "" → ∃ rest, protoLines (buildConversion [("package", SNode.str d)] schema
        messageName { packageName := none }) =
      "syntax = \"proto3\";" :: "" :: ("package " ++ d ++ ";") :: "" :: rest) := by
  have hp1 : (buildConversion directives schema messageName
      { packageName := some p }).packageName = some p := by
    simp only [buildConversion]
    rw [(evolves_buildMessage _ _ _ _).pkg]
  have hd1 : (buildConversion [("package", SNode.str d)] schema messageName
      { packageName := none }).packageName = some d := by
    simp only [buildConversion]
    rw [(evolves_buildMessage _ _ _ _).pkg]
    rfl
  refine ⟨hp1, rfl, ?_, hd1, ?_⟩
  · intro hp
    have hpl : packageLines (buildConversion directives schema messageName
        { packageName := some p }) = ["package " ++ p ++ ";", ""] := by
      simp only [packageLines, hp1]
      rw [if_neg hp]
    exact ⟨protoTailLines (buildConversion directives schema messageName
        { packageName := some p }),
      by simp only [protoLines, hpl, List.cons_append, List.nil_append]⟩
  · intro hd
    have hpl : packageLines (buildConversion [("package", SNode.str d)] schema
        messageName { packageName := none }) = ["package " ++ d ++ ";", ""] := by
      simp only [packageLines, hd1]
      rw [if_neg hd]
    exact ⟨protoTailLines (buildConversion [("package", SNode.str d)] schema
        messageName { packageName := none }),
      by simp only [protoLines, hpl, List.cons_append, List.nil_append]⟩

/-- Witness for C7: with option pkg and directive dir both present the
output ignores the directive and the package line carries pkg; with only
the directive it carries dir. -/
theorem package_precedence_witness :
    ((buildConversion [("package", SNode.str "dir")] [] "M"
      { packageName := some "pkg" }).packageName = some "pkg") ∧
    (convertParsed [("package", SNode.str "dir")] [] "M" { packageName := some "pkg" } =
      convertParsed [] [] "M" { packageName := some "pkg" }) ∧
    (∃ rest, protoLines (buildConversion [("package", SNode.str "dir")] [] "M"
        { packageName := some "pkg" }) =
      "syntax = \"proto3\";" :: "" :: ("package " ++ "pkg" ++ ";") :: "" :: rest) ∧
    (∃ rest, protoLines (buildConversion [("package", SNode.str "dir")] [] "M"
        { packageName := none }) =
      "syntax = \"proto3\";" :: "" :: ("package " ++ "dir" ++ ";") :: "" :: rest) := by
  obtain ⟨h1, h2, h3, h4, h5⟩ :=
    package_precedence [("package", SNode.str "dir")] [] "M" "pkg" "dir"
  exact ⟨h1, h2, h3 (by decide), h5 (by decide)⟩

/- ---------- Numeric type aliases ---------- -/

theorem buildTypeAliases_lookup_of_mem {types : List (String × SNode)} {tn : String}
    (hnodup : (types.map Prod.fst).Nodup)
    (hmem : (tn, SNode.str "number") ∈ types) (hp : tn ∈ PROTO_NUMERIC_TYPES) :
    rlookup (buildTypeAliases types) tn = some tn := by
  induction types with
  | nil => cases hmem
  | cons q rest ih =>
    simp only [List.map_cons, List.nodup_cons] at hnodup
    rcases List.mem_cons.mp hmem with h | h
    · rw [← h]
      simp [buildTypeAliases, List.filterMap_cons, hp, rlookup]
    · have hne : q.1 ≠ tn := fun he => hnodup.1 (he ▸ List.mem_map_of_mem Prod.fst h)
      simp only [buildTypeAliases, List.filterMap_cons]
      obtain ⟨k, v⟩ := q
      cases v with
      | str w =>
        by_cases hcond : w = "number" ∧ k ∈ PROTO_NUMERIC_TYPES
        · simp only [if_pos hcond]
          simp only [rlookup]
          rw [if_neg hne]
          exact ih hnodup.2 h
        · simp only [if_neg hcond]
          exact ih hnodup.2 h
      | arr vs => exact ih hnodup.2 h
      | obj l2 => exact ih hnodup.2 h

/-- C8: the alias table holds an entry exactly for a name declared as the
literal string number and belonging to the fixed numeric wire-type set, and
the scenario Types int64 = number, Required id = int64 renders the field as
int64 id = 1 rather than double. -/
theorem alias_table_and_scenario (types : List (String × SNode)) (tn w : String)
    (hnodup : (types.map Prod.fst).Nodup) :
    (rlookup (buildTypeAliases types) tn = some w ↔
      (w = tn ∧ tn ∈ PROTO_NUMERIC_TYPES ∧
       rlookup types tn = some (SNode.str "number"))) ∧
    convertParsed [] aliasSchema "Msg" {} =
      "syntax = \"proto3\";\n\nmessage Msg \x7b\n  int64 id = 1;\n\x7d\n" := by
  constructor
  · constructor
    · intro h
      obtain ⟨h1, h2, h3⟩ := buildTypeAliases_lookup_some h
      exact ⟨h1, h2, rlookup_eq_some_of_mem_nodup hnodup h3⟩
    · rintro ⟨hw, h2, h3⟩
      rw [hw]
      exact buildTypeAliases_lookup_of_mem hnodup (rlookup_mem h3) h2
  · decide

/-- Witness for C8: the int64 = number declaration yields the alias entry
int64 -> int64. -/
theorem alias_table_and_scenario_witness :
    (rlookup (buildTypeAliases [("int64", SNode.str "number")]) "int64" = some "int64" ↔
      ("int64" = "int64" ∧ "int64" ∈ PROTO_NUMERIC_TYPES ∧
       rlookup [("int64", SNode.str "number")] "int64" = some (SNode.str "number"))) ∧
    convertParsed [] aliasSchema "Msg" {} =
      "syntax = \"proto3\";\n\nmessage Msg \x7b\n  int64 id = 1;\n\x7d\n" :=
  alias_table_and_scenario [("int64", SNode.str "number")] "int64" "int64" (by decide)

/- ---------- Doubly array-suffixed types ---------- -/

theorem append_brackets_getLast (u : String) :
    (u ++ "[]").data.getLast? = some ']' := by
  rw [String.data_append, List.getLast?_append]
  rfl

theorem bracket_not_proto (u : String) : u ++ "[]" ∉ PROTO_NUMERIC_TYPES := by
  intro hmem
  have hlast := append_brackets_getLast u
  simp only [PROTO_NUMERIC_TYPES, List.mem_cons, List.not_mem_nil, or_false] at hmem
  rcases hmem with h | h | h | h | h | h | h | h | h | h | h | h <;>
    (rw [h] at hlast; exact absurd hlast (by decide))

/-- A name carrying the array suffix is never an alias-table key. -/
theorem bracket_alias_none (ta : List (String × SNode)) (u : String) :
    rlookup (buildTypeAliases ta) (u ++ "[]") = none := by
  rcases h : rlookup (buildTypeAliases ta) (u ++ "[]") with _ | a
  · rfl
  · exact absurd (buildTypeAliases_lookup_some h).2.1 (bracket_not_proto u)

/-- A name carrying the array suffix never hits the fixed scalar table. -/
theorem scalarSwitch_bracket (u : String) : scalarSwitch (u ++ "[]") = "string" := by
  have hlast := append_brackets_getLast u
  have h1 : u ++ "[]" ≠ "string" := by
    intro h; rw [h] at hlast; exact absurd hlast (by decide)
  have h2 : u ++ "[]" ≠ "number" := by
    intro h; rw [h] at hlast; exact absurd hlast (by decide)
  have h3 : u ++ "[]" ≠ "boolean" := by
    intro h; rw [h] at hlast; exact absurd hlast (by decide)
  have h4 : u ++ "[]" ≠ "date" := by
    intro h; rw [h] at hlast; exact absurd hlast (by decide)
  have h5 : u ++ "[]" ≠ "tag" := by
    intro h; rw [h] at hlast; exact absurd hlast (by decide)
  have h6 : u ++ "[]" ≠ "flag" := by
    intro h; rw [h] at hlast; exact absurd hlast (by decide)
  have h7 : u ++ "[]" ≠ "any" := by
    intro h; rw [h] at hlast; exact absurd hlast (by decide)
  simp only [scalarSwitch, if_neg h1, if_neg h2, if_neg h3, if_neg h4, if_neg h5,
    if_neg h6, if_neg h7]

/-- C10 counterexample: with a registry declaration literally named with an
array suffix, a doubly suffixed field resolves to that custom message type,
not to the plain scalar string — the inner name can match a custom type. -/
theorem double_array_counterexample :
    (resolveType 3 (SNode.str "string[][]") "xs" "Root" trickCtx).1 =
      ("String[]", true) ∧ ("String[]" : String) ≠ "string" := by
  constructor
  · decide
  · decide

/-- C10 (amended): for a doubly array-suffixed type only the outermost
suffix is stripped, the remaining inner name still carries a suffix and
matches neither the alias table nor the fixed scalar table, and provided it
is also absent from the custom-type registry the field resolves to repeated
string regardless of the innermost element type. -/
theorem double_array_amended (fuel : Nat) (u fn pn : String)
    (c : ConversionContext)
    (hterm : ∀ ch ∈ u.data, isLineTerm ch = false)
    (hta : c.typeAliases = buildTypeAliases c.customTypes)
    (hCustom : rlookup c.customTypes (u ++ "[]") = none) :
    resolveType fuel (SNode.str (u ++ "[][]")) fn pn c = (("string", true), c) := by
  have hne2 : u ++ "[]" ≠ "" := by
    intro h
    have hd : (u ++ "[]").data = [] := by rw [h]
    rw [String.data_append] at hd
    rcases List.append_eq_nil.mp hd with ⟨-, h2⟩
    cases h2
  have hterm2 : ∀ ch ∈ (u ++ "[]").data, isLineTerm ch = false := by
    intro ch hch
    rw [String.data_append] at hch
    rcases List.mem_append.mp hch with h | h
    · exact hterm ch h
    · rcases List.mem_cons.mp h with h | h
      · rw [h]; rfl
      · rcases List.mem_cons.mp h with h | h
        · rw [h]; rfl
        · cases h
  have hM : arrayMatch (u ++ "[][]") = some (u ++ "[]") := by
    have hb : (u ++ "[]") ++ "[]" = u ++ "[][]" := by
      rw [String.append_assoc]
      exact congrArg (fun x => u ++ x) (by decide)
    rw [← hb]
    exact arrayMatch_append (u ++ "[]") hne2 hterm2
  have hAlias : rlookup c.typeAliases (u ++ "[]") = none := by
    rw [hta]
    exact bracket_alias_none c.customTypes u
  simp only [resolveType, resolveTypeAux, hM, resolveSingleTypeAux, hAlias, hCustom,
    scalarSwitch_bracket]

/-- Witness for the amended C10: string[][] in an empty registry resolves
to repeated string. -/
theorem double_array_amended_witness :
    resolveType 3 (SNode.str ("string" ++ "[][]")) "xs" "Root" emptyCtx =
      (("string", true), emptyCtx) :=
  double_array_amended 3 "string" "xs" "Root" emptyCtx (by decide) rfl rfl

end MotlyToProto
